import Mathlib

/-
Verification development for leonardo_toolset/fusion/fuse_illu.py.

The Python source is shallowly embedded: pure per-value computations become
Lean functions over Nat / Int / Rat, fallible numpy operations (reductions over
empty selections, indexing into empty index arrays) become Option-valued
functions, and calls into external third-party libraries (scipy peak finding
and smoothing, skimage Otsu thresholding) are taken as function parameters,
since only their results flow into the code under verification.
-/

namespace FuseIllu

/- ------------------------------------------------------------------ -/
/- fusionResult: selection masks (fuse_illu.py lines 1102-1124)       -/
/- ------------------------------------------------------------------ -/

/-- Secondary-volume selection mask from fusionResult, line 1123:
bottomMask = (mask > boundary_slice).to(torch.float), where mask = arange(m)
is the row index and boundary_slice the boundary value at the corresponding
windowed depth and lateral position. -/
def bottomMaskF (b : ℚ) (r : ℕ) : ℚ := if (r : ℚ) > b then 1 else 0

/-- Primary-volume selection mask from fusionResult, line 1124:
topMask = (mask <= boundary_slice).to(torch.float). -/
def topMaskF (b : ℚ) (r : ℕ) : ℚ := if (r : ℚ) ≤ b then 1 else 0

/-- C9: for every boundary value and every row index, the primary-selection
mask (row <= boundary) and the secondary-selection mask (row > boundary) are
exact complements: their values sum to 1 and exactly one of them is 1. -/
theorem masks_exact_complements (b : ℚ) (r : ℕ) :
    topMaskF b r + bottomMaskF b r = 1 ∧
      ((topMaskF b r = 1 ∧ bottomMaskF b r = 0) ∨
        (topMaskF b r = 0 ∧ bottomMaskF b r = 1)) := by
  unfold topMaskF bottomMaskF
  rcases le_or_lt (r : ℚ) b with h | h
  · rw [if_pos h, if_neg (not_lt.mpr h)]
    exact ⟨by norm_num, Or.inl ⟨rfl, rfl⟩⟩
  · rw [if_neg (not_le.mpr h), if_pos h]
    exact ⟨by norm_num, Or.inr ⟨rfl, rfl⟩⟩

/- ------------------------------------------------------------------ -/
/- train: input-pair dispatch (fuse_illu.py lines 282-314)            -/
/- ------------------------------------------------------------------ -/

/-- Which complete illumination pair train dispatches on. -/
inductive IlluPair : Type
  | leftRight : IlluPair
  | topBottom : IlluPair

/-- Input-pair dispatch at the head of FUSE_illu.train (lines 282-314): the
left/right pair is checked first, then the top/bottom pair; when neither pair
is complete the function prints "input(s) missing, please check." and returns
immediately, producing nothing. -/
def selectPair (top bottom left right : Bool) : Option IlluPair :=
  if left && right then some IlluPair.leftRight
  else if top && bottom then some IlluPair.topBottom
  else none

/-- Outputs of train as far as the input dispatch decides them: run stands for
the rest of the pipeline, producing the fused volume and the boundary file
contents; when the dispatch fails, train returns before any of it runs. -/
def trainOutputs {β : Type} (top bottom left right : Bool)
    (run : IlluPair → β × β) : Option (β × β) :=
  (selectPair top bottom left right).map run

/-- C7: train produces no fused volume and no boundary file exactly when no
complete illumination pair is provided (top without bottom, left without
right, or neither pair complete); an incomplete pair is a fatal
input-validation error, never retried. -/
theorem train_missing_pair_fatal {β : Type} (top bottom left right : Bool)
    (run : IlluPair → β × β) :
    trainOutputs top bottom left right run = none ↔
      ¬((left = true ∧ right = true) ∨ (top = true ∧ bottom = true)) := by
  cases top <;> cases bottom <;> cases left <;> cases right <;>
    simp [trainOutputs, selectPair]

/- ------------------------------------------------------------------ -/
/- segmentSample: crossover depths (fuse_illu.py lines 893-905)       -/
/- ------------------------------------------------------------------ -/

/-- Per-column crossover depth from segmentSample, lines 896-905: peaks is
the index list returned by scipy.signal.find_peaks on the smoothed per-column
intensity-mass curve (external library call, taken as given); cc = peaks[0] + 1
when at least one peak exists, s // 2 otherwise; then cc = min(cc, s // 2). -/
def crossoverCol (s : ℕ) (peaks : List ℕ) : ℕ :=
  let cc :=
    match peaks with
    | p :: _ => p + 1
    | [] => s / 2
  min cc (s / 2)

/-- Global crossover depth from segmentSample, lines 893-894:
c_all = min(l_all[0] + 1 if len(l_all) > 0 else s // 2, s // 2), where l_all
is the peak-index list found on the globally smoothed curve. -/
def crossoverAll (s : ℕ) (l_all : List ℕ) : ℕ :=
  min
    (match l_all with
      | p :: _ => p + 1
      | [] => s / 2)
    (s / 2)

/-- C8: the crossover computation is a total function of the peak lists, so it
never raises; whenever peak detection finds no peaks on a per-column curve
(and likewise on the global curve) the crossover depth falls back to the
volume midpoint s // 2. -/
theorem crossover_fallback_midpoint (s : ℕ) :
    crossoverCol s [] = s / 2 ∧ crossoverAll s [] = s / 2 := by
  constructor <;> simp [crossoverCol, crossoverAll]

/-- C10: every per-column crossover depth and the global crossover depth are
clamped to at most the volume midpoint s // 2, even when a peak is detected
at a depth beyond the midpoint. -/
theorem crossover_le_midpoint (s : ℕ) (peaks l_all : List ℕ) :
    crossoverCol s peaks ≤ s / 2 ∧ crossoverAll s l_all ≤ s / 2 :=
  ⟨min_le_right _ _, min_le_right _ _⟩

/- ------------------------------------------------------------------ -/
/- measureSample (fuse_illu.py lines 994-1019)                        -/
/- ------------------------------------------------------------------ -/

/-- Statistics step of measureSample, lines 999-1002:
rawPlanes_vectored = rawPlanes[rawPlanes != 0] keeps the nonzero voxels;
.max() and .min() on an empty selection raise a ValueError, modelled as none;
the Otsu threshold over the nonzero population is an external skimage call,
taken as a parameter. The returned triple is (thvol, maxvvol, minvvol). -/
def measureSample (otsu : List ℕ → ℕ) (rawPlanes : List ℕ) :
    Option (ℕ × ℕ × ℕ) :=
  match (rawPlanes.filter (fun v => v != 0)).max?,
      (rawPlanes.filter (fun v => v != 0)).min? with
  | some maxv, some minv =>
      some (otsu (rawPlanes.filter (fun v => v != 0)), maxv, minv)
  | _, _ => none

/-- Characterization of List.max? over the naturals. -/
lemma nat_max?_eq_some_iff {l : List ℕ} {a : ℕ} :
    l.max? = some a ↔ a ∈ l ∧ ∀ b ∈ l, b ≤ a :=
  List.max?_eq_some_iff (fun x => le_refl x) (fun x y => max_choice x y)
    (fun _ _ _ => max_le_iff)

/-- Characterization of List.min? over the naturals. -/
lemma nat_min?_eq_some_iff {l : List ℕ} {a : ℕ} :
    l.min? = some a ↔ a ∈ l ∧ ∀ b ∈ l, a ≤ b :=
  List.min?_eq_some_iff (fun x => le_refl x) (fun x y => min_choice x y)
    (fun _ _ _ => le_min_iff)

/-- C6: measureSample errors exactly when the nonzero voxel population of its
input is empty (all voxels zero); on a nonempty population it returns the
Otsu threshold of exactly the nonzero voxels, their maximum and their
minimum. -/
theorem measureSample_spec (otsu : List ℕ → ℕ) (raw : List ℕ) :
    (measureSample otsu raw = none ↔ ∀ v ∈ raw, v = 0) ∧
      (∀ th mx mn, measureSample otsu raw = some (th, mx, mn) →
        th = otsu (raw.filter (fun v => v != 0)) ∧
          (mx ∈ raw ∧ mx ≠ 0 ∧ ∀ v ∈ raw, v ≠ 0 → v ≤ mx) ∧
          (mn ∈ raw ∧ mn ≠ 0 ∧ ∀ v ∈ raw, v ≠ 0 → mn ≤ v)) := by
  have hfe : raw.filter (fun v => v != 0) = [] ↔ ∀ v ∈ raw, v = 0 := by
    simp [List.filter_eq_nil_iff]
  constructor
  · unfold measureSample
    rcases hmax : (raw.filter (fun v => v != 0)).max? with _ | maxv
    · have hnil : raw.filter (fun v => v != 0) = [] :=
        List.max?_eq_none_iff.mp hmax
      have hmin : (raw.filter (fun v => v != 0)).min? = none :=
        List.min?_eq_none_iff.mpr hnil
      rw [hmin]
      simpa using hfe.mp hnil
    · have hne : raw.filter (fun v => v != 0) ≠ [] := by
        intro h
        rw [List.max?_eq_none_iff.mpr h] at hmax
        exact Option.noConfusion hmax
      obtain ⟨minv, hmin⟩ : ∃ mv, (raw.filter (fun v => v != 0)).min? = some mv := by
        rcases hm : (raw.filter (fun v => v != 0)).min? with _ | mv
        · exact absurd (List.min?_eq_none_iff.mp hm) hne
        · exact ⟨mv, rfl⟩
      rw [hmin]
      constructor
      · intro h; exact absurd h (by simp)
      · intro hall; exact absurd (hfe.mpr hall) hne
  · intro th mx mn hsome
    unfold measureSample at hsome
    rcases hmax : (raw.filter (fun v => v != 0)).max? with _ | maxv <;>
      rw [hmax] at hsome
    · simp at hsome
    rcases hmin : (raw.filter (fun v => v != 0)).min? with _ | minv <;>
      rw [hmin] at hsome
    · simp at hsome
    simp only [Option.some.injEq, Prod.mk.injEq] at hsome
    obtain ⟨hth, hmx, hmn⟩ := hsome
    obtain ⟨hmaxMem, hmaxLe⟩ := nat_max?_eq_some_iff.mp hmax
    obtain ⟨hminMem, hminLe⟩ := nat_min?_eq_some_iff.mp hmin
    subst hth hmx hmn
    refine ⟨rfl, ⟨?_, ?_, ?_⟩, ⟨?_, ?_, ?_⟩⟩
    · exact (List.mem_filter.mp hmaxMem).1
    · have := (List.mem_filter.mp hmaxMem).2; simpa using this
    · intro v hv hv0
      exact hmaxLe v (List.mem_filter.mpr ⟨hv, by simpa using hv0⟩)
    · exact (List.mem_filter.mp hminMem).1
    · have := (List.mem_filter.mp hminMem).2; simpa using this
    · intro v hv hv0
      exact hminLe v (List.mem_filter.mpr ⟨hv, by simpa using hv0⟩)

/-- C6 witness: on the concrete volume [0, 3, 5] with a concrete threshold
function, measureSample returns the threshold of the nonzero voxels together
with their maximum 5 and minimum 3. -/
theorem measureSample_spec_witness :
    2 = (fun l : List ℕ => l.length) (([0, 3, 5] : List ℕ).filter (fun v => v != 0)) ∧
      ((5 ∈ ([0, 3, 5] : List ℕ) ∧ 5 ≠ 0 ∧ ∀ v ∈ ([0, 3, 5] : List ℕ), v ≠ 0 → v ≤ 5) ∧
        (3 ∈ ([0, 3, 5] : List ℕ) ∧ 3 ≠ 0 ∧ ∀ v ∈ ([0, 3, 5] : List ℕ), v ≠ 0 → 3 ≤ v)) :=
  (measureSample_spec (fun l => l.length) [0, 3, 5]).2 2 5 3 (by decide)

/- ------------------------------------------------------------------ -/
/- train: boundary persistence clip (fuse_illu.py line 467)           -/
/- ------------------------------------------------------------------ -/

/-- Elementwise clip from np.clip(boundaryE, 0, m_o): values below the lower
bound become the lower bound and values above the upper bound become the
upper bound, both bounds included. -/
def npClip (x lo hi : ℚ) : ℚ := max lo (min x hi)

/-- Persisted boundary value from line 467,
boundaryE = np.clip(boundaryE, 0, m_o).astype(np.uint16): the clipped value is
nonnegative, so the uint16 cast truncates it downward and reduces mod 2^16. -/
def persistedBoundary (x : ℚ) (mo : ℕ) : ℕ :=
  (Int.toNat ⌊npClip x 0 (mo : ℚ)⌋) % 65536

/-- C1 counterexample: with pre-crop row dimension M = 4 and pre-clip boundary
value 9, the persisted boundary value is exactly 4 = M, so it is not strictly
below M. -/
theorem persistedBoundary_not_lt :
    ¬ (persistedBoundary 9 4 < 4) := by
  have h : persistedBoundary 9 4 = 4 := by
    unfold persistedBoundary npClip
    norm_num
    decide
  omega

/-- C1 amended: every persisted Boundary Surface value lies in the closed
interval [0, M]: the np.clip upper bound is inclusive, so values equal to M
can be persisted (whenever the pre-clip surface reaches M or above), while
values above M or below 0 cannot (M below the uint16 range). -/
theorem persistedBoundary_le (x : ℚ) (mo : ℕ) (h : mo < 65536) :
    persistedBoundary x mo ≤ mo := by
  unfold persistedBoundary npClip
  have hle : max 0 (min x (mo : ℚ)) ≤ (mo : ℚ) :=
    max_le (by exact_mod_cast Nat.zero_le mo) (min_le_right x _)
  have hfloor : ⌊max 0 (min x (mo : ℚ))⌋ ≤ (mo : ℤ) := by
    calc ⌊max 0 (min x (mo : ℚ))⌋ ≤ ⌊(mo : ℚ)⌋ := Int.floor_le_floor hle
    _ = (mo : ℤ) := by exact_mod_cast Int.floor_intCast (mo : ℤ)
  have htn : (⌊max 0 (min x (mo : ℚ))⌋).toNat ≤ mo := by omega
  calc (⌊max 0 (min x (mo : ℚ))⌋).toNat % 65536
      ≤ (⌊max 0 (min x (mo : ℚ))⌋).toNat := Nat.mod_le _ _
    _ ≤ mo := htn

/-- C1 amended witness: at pre-clip value 9 and M = 4, the persisted boundary
value is at most 4. -/
theorem persistedBoundary_le_witness :
    (4 : ℕ) < 65536 ∧ persistedBoundary 9 4 ≤ 4 :=
  ⟨by norm_num, persistedBoundary_le 9 4 (by norm_num)⟩

/- ------------------------------------------------------------------ -/
/- train: camera-position flip (fuse_illu.py lines 320-322, 468-469,  -/
/- 474-475, 510-511)                                                  -/
/- ------------------------------------------------------------------ -/

/-- Skeleton of FUSE_illu.train around the cam_pos flag, with volumes as
depth-ordered lists of slices and the boundary as a depth-ordered list of
rows. estimate stands for the pipeline up to the boundary (localization,
statistics, features, segmentation, EM, interpolation, extension, clip) and
fuse for fusionResult together with the final transpose; neither consults
cam_pos. The flag is consulted exactly four times: both inputs are reversed
along depth when cam_pos is back (lines 320-322), the boundary is reversed
before being written to disk (lines 468-469), reversed back after being read
(lines 474-475), and the fused result is reversed at the end (lines
510-511). -/
def trainModel {α γ : Type} (camPosBack : Bool)
    (estimate : List α → List α → List γ)
    (fuse : List α → List α → List γ → List α)
    (top bottom : List α) : List α × List γ :=
  let top2 := if camPosBack then top.reverse else top
  let bottom2 := if camPosBack then bottom.reverse else bottom
  let bd := estimate top2 bottom2
  let bdDisk := if camPosBack then bd.reverse else bd
  let bdUsed := if camPosBack then bdDisk.reverse else bdDisk
  let recon := fuse top2 bottom2 bdUsed
  ((if camPosBack then recon.reverse else recon), bdDisk)

/-- C2: running train with cam_pos back produces the same fused volume as
running it with cam_pos front on the two inputs reversed along the depth
axis and reversing the output back along the depth axis, for every
boundary-estimation and fusion stage. -/
theorem train_camPos_flip {α γ : Type}
    (estimate : List α → List α → List γ)
    (fuse : List α → List α → List γ → List α)
    (top bottom : List α) :
    (trainModel true estimate fuse top bottom).1 =
      ((trainModel false estimate fuse top.reverse bottom.reverse).1).reverse := by
  simp [trainModel]

/- ------------------------------------------------------------------ -/
/- fusionResult: mirrored depth windows (fuse_illu.py lines 1107-1121)-/
/- ------------------------------------------------------------------ -/

/-- Padded depth-index sequence from fusionResult, lines 1107-1114:
l_temp = np.concatenate((np.arange(GFr[0] // 2, 0, -1), np.arange(s),
np.arange(s - GFr[0] // 2, s - GFr[0] + 1, -1))); each arange(a, b, -1) is the
descending list a, a-1, ..., b+1 of length a - b. -/
def l_temp (s gfr0 : ℕ) : List ℤ :=
  ((List.range (gfr0 / 2)).map (fun (k : ℕ) => ((gfr0 / 2 : ℕ) : ℤ) - k))
    ++ ((List.range s).map (fun (t : ℕ) => (t : ℤ)))
    ++ ((List.range (gfr0 - gfr0 / 2 - 1)).map
      (fun (u : ℕ) => (s : ℤ) - (gfr0 / 2 : ℕ) - u))

/-- Neighborhood window of depth indices used for output slice ind, from
line 1120: l_s = l_temp[ii - GFr[0] // 2 : ii + GFr[0] // 2 + 1], a slice of
length 2 * (GFr[0] // 2) + 1 starting at ind = ii - GFr[0] // 2. -/
def windowSlices (s gfr0 ind : ℕ) : List ℤ :=
  ((l_temp s gfr0).drop ind).take (2 * (gfr0 / 2) + 1)

/-- Reflection of a depth index at the edges of [0, s): indices below 0
reflect at 0 and indices at s or above reflect at s - 1, in both cases
without repeating the edge sample (mirror boundary, not wraparound). -/
def reflectIdx (s : ℕ) (j : ℤ) : ℤ :=
  if j < 0 then -j else if j < (s : ℤ) then j else 2 * (s : ℤ) - 2 - j

/-- Closed form of l_temp at the default depth window GFr[0] = 5. -/
lemma l_temp_five (s : ℕ) :
    l_temp s 5 =
      (2 : ℤ) :: (1 : ℤ) ::
        ((List.range s).map (fun (t : ℕ) => (t : ℤ)) ++ [(s : ℤ) - 2, (s : ℤ) - 3]) := by
  have h1 : ((List.range (5 / 2)).map (fun (k : ℕ) => ((5 / 2 : ℕ) : ℤ) - k)) = [2, 1] := by
    norm_num [List.range_succ]
  have h2 : ((List.range (5 - 5 / 2 - 1)).map (fun (u : ℕ) => (s : ℤ) - (5 / 2 : ℕ) - u))
      = [(s : ℤ) - 2, (s : ℤ) - 3] := by
    norm_num [List.range_succ]
    ring
  unfold l_temp
  rw [h1, h2]
  rfl

/-- Elementwise description of l_temp at window 5: position p holds the head
reflection value 2 - p for p < 2, the interior index p - 2 for 2 <= p < 2 + s,
and the tail reflection value 2s - p beyond. -/
lemma l_temp_five_getElem (s p : ℕ) (hp : p < s + 4) :
    (l_temp s 5)[p]? =
      some (if p < 2 then (2 : ℤ) - p
        else if p < 2 + s then (p : ℤ) - 2 else 2 * (s : ℤ) - p) := by
  rw [l_temp_five]
  match p, hp with
  | 0, _ => norm_num
  | 1, _ => norm_num
  | (k + 2), hp => ?_
  rw [List.getElem?_cons_succ, List.getElem?_cons_succ, List.getElem?_append]
  by_cases hk : k < s
  · rw [if_pos (by simpa using hk)]
    rw [List.getElem?_map]
    have : (List.range s)[k]? = some k := by simp [hk]
    rw [this]
    have hc1 : ¬ (k + 2 < 2) := by omega
    have hc2 : k + 2 < 2 + s := by omega
    rw [if_neg hc1, if_pos hc2]
    simp only [Option.map_some', Option.some.injEq]
    push_cast
    ring
  · rw [if_neg (by simpa using hk)]
    simp only [List.length_map, List.length_range]
    have hc1 : ¬ (k + 2 < 2) := by omega
    have hc2 : ¬ (k + 2 < 2 + s) := by omega
    rw [if_neg hc1, if_neg hc2]
    have hks : k - s = 0 ∨ k - s = 1 := by omega
    rcases hks with h | h
    · rw [h]
      simp only [List.getElem?_cons_zero, Option.some.injEq]
      have : k = s := by omega
      subst this
      push_cast
      ring
    · rw [h]
      simp only [List.getElem?_cons_succ, List.getElem?_cons_zero, Option.some.injEq]
      have : k = s + 1 := by omega
      subst this
      push_cast
      ring

/-- Length of l_temp at window 5. -/
lemma l_temp_five_length (s : ℕ) : (l_temp s 5).length = s + 4 := by
  rw [l_temp_five]
  simp

/-- C3: for every volume depth s at least the fusion window size 5 and every
iteration of the fusion loop (output slice ind in [0, s), including the very
first and the very last), the depth indices of the mirrored neighborhood
window l_s are exactly the reflections of ind - 2, ..., ind + 2 at the top
and bottom edges, and every one of them lies within [0, s): reflection, not
wraparound. -/
theorem fusionWindow_inRange_reflect (s ind : ℕ) (hs : 5 ≤ s) (hind : ind < s) :
    windowSlices s 5 ind =
      [reflectIdx s ((ind : ℤ) - 2), reflectIdx s ((ind : ℤ) - 1),
        reflectIdx s (ind : ℤ), reflectIdx s ((ind : ℤ) + 1),
        reflectIdx s ((ind : ℤ) + 2)] ∧
      ∀ j ∈ windowSlices s 5 ind, 0 ≤ j ∧ j < (s : ℤ) := by
  have key : ∀ k : ℕ, k < 5 →
      (windowSlices s 5 ind)[k]? = some (reflectIdx s ((ind : ℤ) + k - 2)) := by
    intro k hk
    unfold windowSlices
    rw [List.getElem?_take]
    rw [if_pos (by norm_num; omega)]
    rw [List.getElem?_drop]
    rw [l_temp_five_getElem s (ind + k) (by omega)]
    congr 1
    unfold reflectIdx
    split_ifs <;> push_cast <;> omega
  have heq : windowSlices s 5 ind =
      [reflectIdx s ((ind : ℤ) - 2), reflectIdx s ((ind : ℤ) - 1),
        reflectIdx s (ind : ℤ), reflectIdx s ((ind : ℤ) + 1),
        reflectIdx s ((ind : ℤ) + 2)] := by
    apply List.ext_getElem?
    intro n
    by_cases hn : n < 5
    · interval_cases n <;> rw [key _ (by norm_num)] <;> norm_num <;>
        (try (congr 1; ring))
    · have hlen : (windowSlices s 5 ind).length ≤ n := by
        unfold windowSlices
        calc (((l_temp s 5).drop ind).take (2 * (5 / 2) + 1)).length
            ≤ 2 * (5 / 2) + 1 := by
              simp
          _ ≤ n := by omega
      rw [List.getElem?_eq_none hlen, List.getElem?_eq_none (by simp; omega)]
  refine ⟨heq, ?_⟩
  have hb : ∀ e : ℤ, -(2 : ℤ) ≤ e → e ≤ (s : ℤ) + 1 →
      0 ≤ reflectIdx s e ∧ reflectIdx s e < (s : ℤ) := by
    intro e h1 h2
    unfold reflectIdx
    split_ifs <;> omega
  intro j hj
  rw [heq] at hj
  simp only [List.mem_cons, List.mem_singleton, List.not_mem_nil, or_false] at hj
  rcases hj with h | h | h | h | h <;> rw [h] <;> apply hb <;> omega

/-- C3 witness: at depth s = 5 and the first output slice ind = 0, the window
is the edge-reflected index list [2, 1, 0, 1, 2] and stays within [0, 5). -/
theorem fusionWindow_inRange_reflect_witness :
    windowSlices 5 5 0 =
      [reflectIdx 5 (((0 : ℕ) : ℤ) - 2), reflectIdx 5 (((0 : ℕ) : ℤ) - 1),
        reflectIdx 5 ((0 : ℕ) : ℤ), reflectIdx 5 (((0 : ℕ) : ℤ) + 1),
        reflectIdx 5 (((0 : ℕ) : ℤ) + 2)] ∧
      ∀ j ∈ windowSlices 5 5 0, 0 ≤ j ∧ j < ((5 : ℕ) : ℤ) :=
  fusionWindow_inRange_reflect 5 0 (by norm_num) (by norm_num)

/- ------------------------------------------------------------------ -/
/- fusionResult: blending with an all-zero boundary (fuse_illu.py     -/
/- lines 1117-1148)                                                   -/
/- ------------------------------------------------------------------ -/

/-- Depth index of window position k for output slice ind, as a natural
number (the in-range theorem above shows the underlying index is
nonnegative and below s for the window actually used). -/
def windowIdx (s gfr0 ind k : ℕ) : ℕ :=
  (((windowSlices s gfr0 ind)[k]?).getD 0).toNat

/-- Modelled from the spec: fusion_perslice (imported from
leonardo_toolset.fusion.utils, whose source is not part of the sources here)
performs a smoothed, windowed weighted combination of the two windowed
volumes guided by the binary selection masks, low-pass filtered across the
depth window to avoid a hard seam; modelled as the mask-weighted average of
the windowed primary and secondary values across the depth window. -/
def fusion_perslice_model (gfr0 : ℕ) (tops bottoms wTop wBot : ℕ → ℚ) : ℚ :=
  (∑ k ∈ Finset.range gfr0, (wTop k * tops k + wBot k * bottoms k)) / gfr0

/-- One voxel of the fused output of fusionResult at output slice ind, row r,
column c: the selection masks are built from the boundary values at the
windowed depth indices (lines 1121-1124) and passed with the windowed
volumes to the per-slice fusion operator (lines 1128-1139). -/
def fusionResultVoxel (s gfr0 : ℕ) (top bottom : ℕ → ℕ → ℕ → ℚ)
    (boundary : ℕ → ℕ → ℚ) (ind r c : ℕ) : ℚ :=
  fusion_perslice_model gfr0
    (fun k => top (windowIdx s gfr0 ind k) r c)
    (fun k => bottom (windowIdx s gfr0 ind k) r c)
    (fun k => topMaskF (boundary (windowIdx s gfr0 ind k) c) r)
    (fun k => bottomMaskF (boundary (windowIdx s gfr0 ind k) c) r)

/-- C4 counterexample: with a boundary that is zero at every (depth, lateral)
position (and in particular everywhere below the volume height M = 2), the
fused voxel at depth 0, row 0, column 0 of a constant-7 primary and
constant-3 secondary volume equals the primary value 7, not the secondary
value 3: the output is not sourced entirely from the secondary volume. -/
theorem fusion_zero_boundary_not_all_secondary :
    fusionResultVoxel 1 1 (fun _ _ _ => 7) (fun _ _ _ => 3) (fun _ _ => 0) 0 0 0 = 7 ∧
      (7 : ℚ) ≠ 3 := by
  constructor
  · unfold fusionResultVoxel fusion_perslice_model windowIdx windowSlices l_temp
      topMaskF bottomMaskF
    norm_num
  · norm_num

/-- C4 amended: with an everywhere-zero boundary, every fused voxel at a row
index of at least 1 (every row strictly above the boundary) is a combination
of secondary-volume voxels only, the primary mask weight being 0 there; the
voxels of row 0 are instead sourced from the primary volume, because the
primary selection mask is row <= boundary, inclusive. -/
theorem fusion_zero_boundary_rows_above (s gfr0 : ℕ)
    (top bottom : ℕ → ℕ → ℕ → ℚ) (boundary : ℕ → ℕ → ℚ)
    (hb : ∀ z x, boundary z x = 0) (ind r c : ℕ) (hr : 1 ≤ r) :
    fusionResultVoxel s gfr0 top bottom boundary ind r c =
      (∑ k ∈ Finset.range gfr0, bottom (windowIdx s gfr0 ind k) r c) / gfr0 := by
  unfold fusionResultVoxel fusion_perslice_model
  congr 1
  apply Finset.sum_congr rfl
  intro k _
  simp only [hb, topMaskF, bottomMaskF]
  have hr1 : (1 : ℚ) ≤ (r : ℚ) := by exact_mod_cast hr
  rw [if_neg (by linarith), if_pos (by linarith)]
  ring

/-- C4 amended witness: at the concrete instance of the counterexample but at
row 1, the fused voxel is the secondary-only window average. -/
theorem fusion_zero_boundary_rows_above_witness :
    fusionResultVoxel 1 1 (fun _ _ _ => (7 : ℚ)) (fun _ _ _ => 3) (fun _ _ => 0) 0 1 0 =
      (∑ _k ∈ Finset.range 1, (3 : ℚ)) / 1 :=
  fusion_zero_boundary_rows_above 1 1 (fun _ _ _ => (7 : ℚ)) (fun _ _ _ => 3)
    (fun _ _ => 0) (fun _ _ => rfl) 0 1 0 (by norm_num)

/- ------------------------------------------------------------------ -/
/- localizingSample (fuse_illu.py lines 1036-1072)                    -/
/- ------------------------------------------------------------------ -/

/-- Column sum of the thresholded MIP mask over rows [0, m):
np.sum(segMask, axis=0)[j]. -/
def colSum (mask : ℕ → ℕ → Bool) (m j : ℕ) : ℕ :=
  ((List.range m).filter (fun i => mask i j)).length

/-- Row sum of the thresholded MIP mask over columns [0, n):
np.sum(segMask, axis=1)[i]. -/
def rowSum (mask : ℕ → ℕ → Bool) (n i : ℕ) : ℕ :=
  ((List.range n).filter (fun j => mask i j)).length

/-- d1 from lines 1054-1057: the increasing list of column indices whose
column sum is nonzero, np.where(np.sum(segMask, axis=0) != 0)[0]. -/
def d1List (mask : ℕ → ℕ → Bool) (m n : ℕ) : List ℕ :=
  (List.range n).filter (fun j => colSum mask m j != 0)

/-- d2 from lines 1054-1057: the increasing list of row indices whose row sum
is nonzero, np.where(np.sum(segMask, axis=1) != 0)[0]. -/
def d2List (mask : ℕ → ℕ → Bool) (m n : ℕ) : List ℕ :=
  (List.range m).filter (fun i => rowSum mask n i != 0)

/-- Per-volume crop box from lines 1058-1064:
a, b, c, d = (max(0, d1[0] - 100), min(n, d1[-1] + 100), max(0, d2[0] - 100),
min(m, d2[-1] + 100)), recorded in cropInfo as
(startX, endX, startY, endY) = (c, d, a, b); indexing d1[0] and d2[0] on an
empty foreground raises an IndexError, modelled as none. -/
def boxOf (mask : ℕ → ℕ → Bool) (m n : ℕ) : Option (ℤ × ℤ × ℤ × ℤ) :=
  match (d1List mask m n).head?, (d1List mask m n).getLast?,
      (d2List mask m n).head?, (d2List mask m n).getLast? with
  | some h1, some l1, some h2, some l2 =>
      some (max 0 ((h2 : ℤ) - 100), min (m : ℤ) ((l2 : ℤ) + 100),
        max 0 ((h1 : ℤ) - 100), min (n : ℤ) ((l1 : ℤ) + 100))
  | _, _, _, _ => none

/-- Combined crop region from lines 1065-1071: the "in summary" row takes,
per coordinate, min(startX), max(endX), min(startY), max(endY) over the two
per-volume crop boxes. -/
def localizingCrop (maskTop maskBottom : ℕ → ℕ → Bool) (m n : ℕ) :
    Option (ℤ × ℤ × ℤ × ℤ) :=
  match boxOf maskTop m n, boxOf maskBottom m n with
  | some (sx1, ex1, sy1, ey1), some (sx2, ex2, sy2, ey2) =>
      some (min sx1 sx2, max ex1 ex2, min sy1 sy2, max ey1 ey2)
  | _, _ => none

/-- Specification-side set of foreground row coordinates of the mask. -/
def fgRows (mask : ℕ → ℕ → Bool) (m n : ℕ) : Finset ℕ :=
  (Finset.range m).filter (fun i => ∃ j ∈ Finset.range n, mask i j)

/-- Specification-side set of foreground column coordinates of the mask. -/
def fgCols (mask : ℕ → ℕ → Bool) (m n : ℕ) : Finset ℕ :=
  (Finset.range n).filter (fun j => ∃ i ∈ Finset.range m, mask i j)

/-- Specification-side per-volume bounding box, following the words of the
spec: the bounding box of the foreground, widened by a fixed 100-pixel
margin and clamped to the image extent; undefined when the foreground is
empty. -/
def specBox (mask : ℕ → ℕ → Bool) (m n : ℕ) : Option (ℤ × ℤ × ℤ × ℤ) :=
  if h : (fgRows mask m n).Nonempty ∧ (fgCols mask m n).Nonempty then
    some (max 0 (((fgRows mask m n).min' h.1 : ℤ) - 100),
      min (m : ℤ) (((fgRows mask m n).max' h.1 : ℤ) + 100),
      max 0 (((fgCols mask m n).min' h.2 : ℤ) - 100),
      min (n : ℤ) (((fgCols mask m n).max' h.2 : ℤ) + 100))
  else none

/-- Specification-side combined crop region: the union of the two per-volume
bounding boxes, taking the minimum of the start coordinates and the maximum
of the end coordinates. -/
def specCombinedCrop (maskTop maskBottom : ℕ → ℕ → Bool) (m n : ℕ) :
    Option (ℤ × ℤ × ℤ × ℤ) :=
  match specBox maskTop m n, specBox maskBottom m n with
  | some (sx1, ex1, sy1, ey1), some (sx2, ex2, sy2, ey2) =>
      some (min sx1 sx2, max ex1 ex2, min sy1 sy2, max ey1 ey2)
  | _, _ => none

/-- The head of a filtered range is the least member of any finite set with
the same membership condition. -/
lemma head?_filter_range (n : ℕ) (p : ℕ → Bool) (S : Finset ℕ)
    (hmem : ∀ j, j ∈ S ↔ (j < n ∧ p j = true)) :
    ((List.range n).filter p).head? =
      if h : S.Nonempty then some (S.min' h) else none := by
  have hmemL : ∀ j, j ∈ (List.range n).filter p ↔ j ∈ S := by
    intro j
    rw [List.mem_filter, List.mem_range, hmem]
  by_cases hS : S.Nonempty
  · rw [dif_pos hS]
    have hne : (List.range n).filter p ≠ [] := by
      intro hnil
      have := (hmemL (S.min' hS)).mpr (S.min'_mem hS)
      rw [hnil] at this
      exact absurd this (List.not_mem_nil _)
    obtain ⟨a, t, hl⟩ := List.exists_cons_of_ne_nil hne
    have hsorted : ((List.range n).filter p).Pairwise (· < ·) :=
      (List.sorted_lt_range n).filter p
    rw [hl]
    have haS : a ∈ S := (hmemL a).mp (hl ▸ List.mem_cons_self a t)
    have hmin : ∀ b ∈ S, a ≤ b := by
      intro b hb
      have hbl : b ∈ a :: t := hl ▸ (hmemL b).mpr hb
      rcases List.mem_cons.mp hbl with h | h
      · exact le_of_eq h.symm
      · rw [hl] at hsorted
        exact le_of_lt ((List.pairwise_cons.mp hsorted).1 b h)
    have : S.min' hS = a :=
      le_antisymm (Finset.min'_le S a haS) (Finset.le_min' S hS a hmin)
    rw [this]
    rfl
  · rw [dif_neg hS]
    have hnil : (List.range n).filter p = [] := by
      rw [List.eq_nil_iff_forall_not_mem]
      intro x hx
      exact hS ⟨x, (hmemL x).mp hx⟩
    rw [hnil]
    rfl

/-- The last element of a filtered range is the greatest member of any finite
set with the same membership condition. -/
lemma getLast?_filter_range (n : ℕ) (p : ℕ → Bool) (S : Finset ℕ)
    (hmem : ∀ j, j ∈ S ↔ (j < n ∧ p j = true)) :
    ((List.range n).filter p).getLast? =
      if h : S.Nonempty then some (S.max' h) else none := by
  have hmemL : ∀ j, j ∈ (List.range n).filter p ↔ j ∈ S := by
    intro j
    rw [List.mem_filter, List.mem_range, hmem]
  rw [← List.head?_reverse]
  by_cases hS : S.Nonempty
  · rw [dif_pos hS]
    have hne : ((List.range n).filter p).reverse ≠ [] := by
      intro hnil
      have := (hmemL (S.max' hS)).mpr (S.max'_mem hS)
      rw [← List.mem_reverse, hnil] at this
      exact absurd this (List.not_mem_nil _)
    obtain ⟨a, t, hl⟩ := List.exists_cons_of_ne_nil hne
    have hsorted : (((List.range n).filter p).reverse).Pairwise (· > ·) := by
      rw [List.pairwise_reverse]
      exact (List.sorted_lt_range n).filter p
    rw [hl]
    have haS : a ∈ S := by
      have : a ∈ ((List.range n).filter p).reverse := hl ▸ List.mem_cons_self a t
      exact (hmemL a).mp (List.mem_reverse.mp this)
    have hmax : ∀ b ∈ S, b ≤ a := by
      intro b hb
      have hbl : b ∈ a :: t := by
        rw [← hl, List.mem_reverse]
        exact (hmemL b).mpr hb
      rcases List.mem_cons.mp hbl with h | h
      · exact le_of_eq h
      · rw [hl] at hsorted
        exact le_of_lt ((List.pairwise_cons.mp hsorted).1 b h)
    have : S.max' hS = a :=
      le_antisymm (Finset.max'_le S hS a hmax) (Finset.le_max' S a haS)
    rw [this]
    rfl
  · rw [dif_neg hS]
    have hnil : (List.range n).filter p = [] := by
      rw [List.eq_nil_iff_forall_not_mem]
      intro x hx
      exact hS ⟨x, (hmemL x).mp hx⟩
    rw [hnil]
    rfl

/-- A nonzero column sum means some row of that column is foreground. -/
lemma colSum_ne_zero_iff (mask : ℕ → ℕ → Bool) (m j : ℕ) :
    (colSum mask m j != 0) = true ↔ ∃ i ∈ Finset.range m, mask i j := by
  simp [colSum, List.length_eq_zero, List.filter_eq_nil_iff]

/-- A nonzero row sum means some column of that row is foreground. -/
lemma rowSum_ne_zero_iff (mask : ℕ → ℕ → Bool) (n i : ℕ) :
    (rowSum mask n i != 0) = true ↔ ∃ j ∈ Finset.range n, mask i j := by
  simp [rowSum, List.length_eq_zero, List.filter_eq_nil_iff]

/-- The per-volume crop box computed by localizingSample equals the
specification-side clamped, margin-widened foreground bounding box. -/
lemma boxOf_eq_specBox (mask : ℕ → ℕ → Bool) (m n : ℕ) :
    boxOf mask m n = specBox mask m n := by
  have hmemC : ∀ j, j ∈ fgCols mask m n ↔
      (j < n ∧ (colSum mask m j != 0) = true) := by
    intro j
    rw [fgCols, Finset.mem_filter, Finset.mem_range, colSum_ne_zero_iff]
  have hmemR : ∀ i, i ∈ fgRows mask m n ↔
      (i < m ∧ (rowSum mask n i != 0) = true) := by
    intro i
    rw [fgRows, Finset.mem_filter, Finset.mem_range, rowSum_ne_zero_iff]
  unfold boxOf specBox d1List d2List
  rw [head?_filter_range n _ (fgCols mask m n) hmemC,
    getLast?_filter_range n _ (fgCols mask m n) hmemC,
    head?_filter_range m _ (fgRows mask m n) hmemR,
    getLast?_filter_range m _ (fgRows mask m n) hmemR]
  by_cases hC : (fgCols mask m n).Nonempty <;>
    by_cases hR : (fgRows mask m n).Nonempty
  · rw [dif_pos hC, dif_pos hC, dif_pos hR, dif_pos hR, dif_pos ⟨hR, hC⟩]
  · have hcon : ¬((fgRows mask m n).Nonempty ∧ (fgCols mask m n).Nonempty) :=
      fun h => hR h.1
    rw [dif_pos hC, dif_pos hC, dif_neg hR, dif_neg hR, dif_neg hcon]
  · have hcon : ¬((fgRows mask m n).Nonempty ∧ (fgCols mask m n).Nonempty) :=
      fun h => hC h.2
    rw [dif_neg hC, dif_neg hC, dif_pos hR, dif_pos hR, dif_neg hcon]
  · have hcon : ¬((fgRows mask m n).Nonempty ∧ (fgCols mask m n).Nonempty) :=
      fun h => hC h.2
    rw [dif_neg hC, dif_neg hC, dif_neg hR, dif_neg hR, dif_neg hcon]

/-- C5: the combined crop region returned by localizingSample equals the
union of the two per-volume bounding boxes (minimum of the start
coordinates, maximum of the end coordinates), where each per-volume box is
the foreground bounding box widened by the fixed 100-pixel margin and
clamped to the image extent [0, M) x [0, N); both computations fail together
when a foreground is empty. -/
theorem localizingSample_crop_eq_spec (maskTop maskBottom : ℕ → ℕ → Bool)
    (m n : ℕ) :
    localizingCrop maskTop maskBottom m n =
      specCombinedCrop maskTop maskBottom m n := by
  unfold localizingCrop specCombinedCrop
  rw [boxOf_eq_specBox maskTop, boxOf_eq_specBox maskBottom]

end FuseIllu
